import Mathlib

/-!
Verification of the hybrid retrieval and content-classification core of the
uk-gov-tech-standards-mcp repository, as a shallow embedding in Lean 4.

The embedding covers:
- the ContentProcessor (src/content-processor: id generation, tag extraction,
  compliance-level inference, extractive summarisation, related-standard
  discovery, validation);
- the DatabaseManager (insertStandard / searchStandards / hybridSearch /
  rebuildFTSIndex / the corruption-recovering all() wrapper).

Modelling conventions:
- JavaScript numbers (search scores) are modelled as rationals.
- JavaScript strings are Lean Strings; all string transformations are
  re-implemented structurally over the character list so that the kernel can
  evaluate them on concrete inputs.  Char.toLower / Char.isWhitespace agree
  with the JavaScript counterparts on the ASCII texts involved.
- External collaborators (the WHATWG URL parser, the md5 digest, the SQLite
  FTS5 MATCH relation and bm25 raw scores, the Chroma vector store, and
  JSON.parse) are parameters of the definitions that call them.
- Store-managed timestamps (created_at / updated_at) are display-only data
  not inspected by any operation modelled here and are omitted.
-/

/-! ### String helpers (structural re-implementations of JS string methods) -/

/-- Lower-casing, character by character (JS String.prototype.toLowerCase on
ASCII text; identical to core String.toLower but kernel-evaluable). -/
def lowerStr (s : String) : String := ⟨s.data.map Char.toLower⟩

/-- Does the first list start with the second one? -/
def listStartsWith : List Char → List Char → Bool
  | _, [] => true
  | [], _ :: _ => false
  | a :: as, b :: bs => a = b && listStartsWith as bs

/-- Substring containment on character lists (first argument is the
haystack). -/
def listContainsSub : List Char → List Char → Bool
  | [], needle => needle.isEmpty
  | h :: rest, needle => listStartsWith (h :: rest) needle || listContainsSub rest needle

/-- JS String.prototype.includes. -/
def strContains (hay needle : String) : Bool := listContainsSub hay.data needle.data

/-- JS String.prototype.trim (whitespace as recognised by
Char.isWhitespace, which agrees with JS on space / tab / CR / LF). -/
def trimStr (s : String) : String :=
  ⟨((s.data.dropWhile Char.isWhitespace).reverse.dropWhile Char.isWhitespace).reverse⟩

/-- JS Array.prototype.join with a separator. -/
def joinSep (sep : String) : List String → String
  | [] => ""
  | [s] => s
  | s :: t :: rest => s ++ sep ++ joinSep sep (t :: rest)

/-- JS Set.prototype.add on a list model of an insertion-ordered set. -/
def setAdd (l : List String) (x : String) : List String :=
  if x ∈ l then l else l ++ [x]

/-! ### Data model (src/types/standard.ts) -/

/-- The compliance_level enumeration. -/
inductive ComplianceLevel where
  | mandatory
  | recommended
  | optional
deriving DecidableEq, Repr

/-- A catalogued standard (the Standard interface).  created_at / updated_at
are store-managed timestamps, outside the model. -/
structure Standard where
  id : String
  title : String
  category : String
  url : String
  content : String
  summary : Option String
  lastUpdated : Option String
  sourceOrg : Option String
  tags : List String
  complianceLevel : Option ComplianceLevel
  relatedStandards : List String
deriving DecidableEq, Repr

/-- A raw page coming from the (excluded) crawler, the ScrapedPage
interface. -/
structure ScrapedPage where
  url : String
  title : String
  content : String
  lastModified : Option String
  category : String
  sourceOrg : Option String
  links : List String
deriving DecidableEq, Repr

/-- A search result: a standard plus relevance score and matched fields. -/
structure SearchResult where
  standard : Standard
  relevanceScore : ℚ
  matchedFields : List String
deriving DecidableEq, Repr

/-! ### ContentProcessor (pure classification pipeline) -/

/-- The fixed technical-term vocabulary of extractTags. -/
def technicalTerms : List String :=
  ["api", "rest", "soap", "graphql", "json", "xml",
   "oauth", "jwt", "https", "ssl", "tls",
   "gdpr", "data protection", "privacy",
   "cloud", "aws", "azure", "saas", "paas", "iaas",
   "security", "cyber security", "malware", "phishing",
   "accessibility", "wcag", "screen reader",
   "agile", "scrum", "devops", "ci/cd",
   "open source", "open data", "open standards",
   "docker", "kubernetes", "microservices"]

/-- The fixed government-term vocabulary of extractTags. -/
def govTerms : List String :=
  ["gds", "cabinet office", "ncsc", "hmrc", "dvla",
   "digital service standard", "government digital service",
   "public sector", "civil service", "whitehall",
   "transparency", "open government", "digital by default"]

/-- The fixed compliance-term vocabulary of extractTags. -/
def complianceTerms : List String :=
  ["iso 27001", "pci dss", "sox", "hipaa",
   "mandatory", "recommended", "optional",
   "compliance", "audit", "assessment",
   "risk management", "governance"]

/-- ContentProcessor.extractTags: case-insensitive containment of title+content
against the three vocabularies, collected into an insertion-ordered set,
capped at 20. -/
def extractTags (title content : String) : List String :=
  let text := lowerStr (title ++ " " ++ content)
  let t1 := technicalTerms.foldl
    (fun acc term => if strContains text term then setAdd acc term else acc) []
  let t2 := govTerms.foldl
    (fun acc term => if strContains text term then setAdd acc term else acc) t1
  let t3 := complianceTerms.foldl
    (fun acc term => if strContains text term then setAdd acc term else acc) t2
  t3.take 20

/-- Mandatory-signalling indicator phrases. -/
def mandatoryIndicators : List String :=
  ["must", "shall", "required", "mandatory", "obligation",
   "compulsory", "essential", "critical requirement"]

/-- Recommended-signalling indicator phrases. -/
def recommendedIndicators : List String :=
  ["should", "recommended", "best practice", "advised",
   "suggested", "good practice", "guideline"]

/-- Optional-signalling indicator phrases. -/
def optionalIndicators : List String :=
  ["may", "can", "optional", "consider", "might",
   "could", "possible", "alternative"]

/-- Number of mandatory indicators contained in the lower-cased content
(each indicator contributes at most 1). -/
def mandatoryCount (content : String) : Nat :=
  (mandatoryIndicators.filter (fun t => strContains (lowerStr content) t)).length

/-- Number of recommended indicators contained in the lower-cased content. -/
def recommendedCount (content : String) : Nat :=
  (recommendedIndicators.filter (fun t => strContains (lowerStr content) t)).length

/-- Number of optional indicators contained in the lower-cased content. -/
def optionalCount (content : String) : Nat :=
  (optionalIndicators.filter (fun t => strContains (lowerStr content) t)).length

/-- ContentProcessor.determineComplianceLevel. -/
def determineComplianceLevel (content : String) : Option ComplianceLevel :=
  if mandatoryCount content > recommendedCount content ∧
     mandatoryCount content > optionalCount content then some .mandatory
  else if recommendedCount content > optionalCount content then some .recommended
  else if optionalCount content > 0 then some .optional
  else none

/-- The fixed key-term list used by the summariser's sentence scoring. -/
def keyTerms : List String :=
  ["standard", "requirement", "must", "should", "guidance",
   "policy", "procedure", "compliance", "security", "api",
   "data", "service", "digital", "technology", "government"]

/-- Score of one candidate sentence (position bonus + key terms + length
bonus), exactly as in generateSummary. -/
def sentenceScore (index : Nat) (sentence : String) : Nat :=
  let sentenceLower := lowerStr sentence
  let posScore := 10 - index
  let keyScore := 2 * (keyTerms.filter (fun t => strContains sentenceLower t)).length
  let words := (List.splitOnP (fun c => c = ' ') sentence.data).length
  let lenScore := if 10 ≤ words && words ≤ 30 then 3 else 0
  posScore + keyScore + lenScore

/-- A sentence paired with its extractive-summarisation score. -/
structure ScoredSentence where
  sentence : String
  score : Nat
deriving DecidableEq, Repr

/-- Descending order on scored sentences (the JS comparator
(a, b) =\x3e b.score - a.score). -/
def ssGE (a b : ScoredSentence) : Prop := b.score ≤ a.score

instance : DecidableRel ssGE := fun a b => inferInstanceAs (Decidable (b.score ≤ a.score))

instance : IsTotal ScoredSentence ssGE :=
  ⟨fun a b => (Nat.le_total b.score a.score).imp (fun h => h) (fun h => h)⟩

instance : IsTrans ScoredSentence ssGE :=
  ⟨fun _ _ _ h1 h2 => Nat.le_trans h2 h1⟩

/-- The sentence candidates of generateSummary: split on runs of terminal
punctuation (runs collapse; the subsequent length-filter removes the empty
segments a single-character split would add) and keep pieces whose trimmed
length exceeds 10. -/
def summarySentences (content : String) : List String :=
  ((List.splitOnP (fun c => c = '.' || c = '!' || c = '?') content.data).map
    (fun l => (⟨l⟩ : String))).filter (fun s => 10 < (trimStr s).length)

/-- The untruncated summary of generateSummary: score every candidate (with
its position index), stable-sort descending by score, keep the top 3 trimmed
sentences, join with ". " and close with a period. -/
def summaryJoined (content : String) : String :=
  let scored := (summarySentences content).enum.map
    (fun p => ScoredSentence.mk (trimStr p.2) (sentenceScore p.1 p.2))
  let topSentences := ((List.insertionSort ssGE scored).take 3).map (fun x => x.sentence)
  joinSep ". " topSentences ++ "."

/-- ContentProcessor.generateSummary: empty when there is no candidate
sentence, otherwise the joined summary truncated to maxLength with a
three-character ellipsis when it is too long. -/
def generateSummary (content : String) (maxLength : Nat) : String :=
  if (summarySentences content).isEmpty then ""
  else if maxLength < (summaryJoined content).length then
    (⟨(summaryJoined content).data.take (maxLength - 3)⟩ : String) ++ "..."
  else summaryJoined content

/-- The stop-word list of extractKeywords. -/
def stopWords : List String :=
  ["this", "that", "with", "have", "will", "from", "they", "know",
   "want", "been", "good", "much", "some", "time", "very", "when",
   "come", "here", "just", "like", "long", "make", "many", "over",
   "such", "take", "than", "them", "well", "were", "government"]

/-- A word character in the JS regex sense (the class backslash-w). -/
def wordChar (c : Char) : Bool := c.isAlphanum || c = '_'

/-- ContentProcessor.extractKeywords: whitespace-split (runs collapse; the
empty segments a single-character split adds are removed by the length
filter), strip non-word characters, lower-case, keep words longer than 3,
drop stop words. -/
def extractKeywords (text : String) : List String :=
  let words := ((List.splitOnP (fun c => c.isWhitespace) text.data).map
      (fun w => lowerStr ⟨w.filter wordChar⟩)).filter (fun w => 3 < w.length)
  words.filter (fun w => ¬ (w ∈ stopWords))

/-- One step of ContentProcessor.findRelatedStandards: process one candidate
standard, adding its id to the insertion-ordered set for each of the three
signals that fires. -/
def relatedStep (standard : Standard) (related : List String) (other : Standard) : List String :=
  if other.id = standard.id then related else
  let commonTags := standard.tags.filter (fun tag => other.tags.contains tag)
  let r1 := if 2 ≤ commonTags.length then setAdd related other.id else related
  let r2 := if standard.category = other.category && r1.length < 10 then setAdd r1 other.id else r1
  let standardText := lowerStr (standard.title ++ " " ++ standard.content ++ " "
    ++ joinSep " " standard.tags)
  let otherText := lowerStr (other.title ++ " " ++ other.content ++ " "
    ++ joinSep " " other.tags)
  let keywords := extractKeywords standardText
  let otherKeywords := extractKeywords otherText
  let commonKeywords := keywords.filter (fun kw => otherKeywords.contains kw)
  if 3 ≤ commonKeywords.length then setAdd r2 other.id else r2

/-- ContentProcessor.findRelatedStandards. -/
def findRelatedStandards (standard : Standard) (allStandards : List Standard) : List String :=
  (allStandards.foldl (relatedStep standard) []).take 10

/-- ContentProcessor.generateStandardId.  The WHATWG URL pathname extraction
and the md5 hex digest are external library calls, passed as parameters. -/
def generateStandardId (pathname md5hex : String → String) (url : String) : String :=
  let urlPath := pathname url
  let noLeadSlash : List Char :=
    match urlPath.data with
    | '/' :: rest => rest
    | l => l
  let cleanPath := lowerStr
    ⟨(noLeadSlash.map (fun c => if c = '/' then '-' else c)).filter
      (fun c => c.isAlphanum || c = '-')⟩
  let hash : String := ⟨(md5hex url).data.take 8⟩
  cleanPath ++ "-" ++ hash

/-- ContentProcessor.processScrapedPage. -/
def processScrapedPage (pathname md5hex : String → String) (p : ScrapedPage) : Standard :=
  { id := generateStandardId pathname md5hex p.url
    title := p.title
    category := p.category
    url := p.url
    content := p.content
    summary := some (generateSummary p.content 500)
    lastUpdated := p.lastModified
    sourceOrg := p.sourceOrg
    tags := extractTags p.title p.content
    complianceLevel := determineComplianceLevel p.content
    relatedStandards := [] }

/-- The result record of ContentProcessor.validateStandard. -/
structure ValidationResult where
  valid : Bool
  errors : List String
deriving DecidableEq, Repr

/-- ContentProcessor.validateStandard.  URL syntactic validity (success of
the WHATWG URL constructor) is an external call, passed as a parameter. -/
def validateStandard (isValidUrl : String → Bool) (s : Standard) : ValidationResult :=
  let e1 := if s.id = "" ∨ trimStr s.id = "" then ["Standard ID is required"] else []
  let e2 := if s.title = "" ∨ trimStr s.title = "" then ["Standard title is required"] else []
  let e3 := if s.url = "" ∨ isValidUrl s.url = false then ["Valid URL is required"] else []
  let e4 := if s.content = "" ∨ (trimStr s.content).length < 50 then
    ["Standard content must be at least 50 characters long"] else []
  let e5 := if s.category = "" ∨ trimStr s.category = "" then
    ["Standard category is required"] else []
  let errors := e1 ++ e2 ++ e3 ++ e4 ++ e5
  { valid := errors.isEmpty, errors := errors }

/-! ### DatabaseManager: persisted state and insertStandard -/

/-- JSON string escaping for the array encoder (JSON.stringify; control
characters do not occur in the modelled corpus). -/
def jsonEscape (s : String) : String :=
  ⟨s.data.foldr (fun c acc => if c = '"' || c = '\\' then '\\' :: c :: acc else c :: acc) []⟩

/-- JSON.stringify on an array of strings, as used for the tags and
related_standards columns. -/
def jsonArrayEncode (l : List String) : String :=
  "[" ++ joinSep "," (l.map (fun t => "\"" ++ jsonEscape t ++ "\"")) ++ "]"

/-- A row of the standards_fts virtual table (columns id, title, content,
summary, tags). -/
structure FtsEntry where
  id : String
  title : String
  content : String
  summary : Option String
  tags : String
deriving DecidableEq, Repr

/-- The FTS row derived from a standards row (what the insert trigger
writes). -/
def toFtsEntry (s : Standard) : FtsEntry :=
  { id := s.id, title := s.title, content := s.content, summary := s.summary,
    tags := jsonArrayEncode s.tags }

/-- The persisted database state: the standards table, the categories table
(name with live count) and the derived standards_fts index. -/
structure DbState where
  standards : List Standard
  categories : List (String × Nat)
  fts : List FtsEntry
deriving DecidableEq, Repr

/-- INSERT OR REPLACE INTO categories: the conflicting row is deleted and the
new row inserted. -/
def catSet (cats : List (String × Nat)) (k : String) (v : Nat) : List (String × Nat) :=
  cats.filter (fun p => !(p.1 = k : Bool)) ++ [(k, v)]

/-- Does a stored row conflict with the incoming row under INSERT OR REPLACE
(same id primary key or same UNIQUE url)? -/
def conflictsWith (s r : Standard) : Bool := r.id = s.id || r.url = s.url

/-- DatabaseManager.insertStandard: INSERT OR REPLACE deletes the rows
conflicting on the id primary key or the UNIQUE url from the standards table
and inserts the new row.  On the index side only the AFTER INSERT trigger
fires: SQLite fires delete triggers for rows removed by REPLACE conflict
resolution only under PRAGMA recursive_triggers, and
configureDatabaseSettings sets only journal_mode, busy_timeout, foreign_keys
and synchronous, never recursive_triggers, so a replaced row's old
standards_fts entry stays behind while a fresh entry is appended.
updateCategoryCount then stores the live count of the new row's category. -/
def insertStandard (s : Standard) (db : DbState) : DbState :=
  let standards := db.standards.filter (fun r => !(conflictsWith s r)) ++ [s]
  let fts := db.fts ++ [toFtsEntry s]
  let categories := catSet db.categories s.category
    (standards.countP (fun r => decide (r.category = s.category)))
  { standards := standards, categories := categories, fts := fts }

/-! ### DatabaseManager.searchStandards -/

/-- The optional category filter (SQL: AND category = ?). -/
def categoryMatch (category : Option String) (s : Standard) : Bool :=
  match category with
  | none => true
  | some c => s.category = c

/-- The optional organisation filter (SQL: AND source_org = ?; a NULL
source_org never equals the bound value). -/
def orgMatch (organisation : Option String) (s : Standard) : Bool :=
  match organisation with
  | none => true
  | some o => s.sourceOrg = some o

/-- Conjunction of the two exact-match filters. -/
def rowFilter (category organisation : Option String) (s : Standard) : Bool :=
  categoryMatch category s && orgMatch organisation s

/-- ORDER BY title: ascending lexicographic order on titles. -/
def titleLE (a b : Standard) : Prop := a.title ≤ b.title

instance : DecidableRel titleLE := fun a b => inferInstanceAs (Decidable (a.title ≤ b.title))

instance : IsTotal Standard titleLE := ⟨fun a b => le_total a.title b.title⟩

instance : IsTrans Standard titleLE := ⟨fun _ _ _ h1 h2 => le_trans h1 h2⟩

/-- The empty-query branch of searchStandards: all rows passing the filters,
ordered by title, with the sentinel score 1.0 and no matched fields. -/
def searchStandardsNoQuery (db : List Standard) (category organisation : Option String) :
    List SearchResult :=
  let rows := List.insertionSort titleLE (db.filter (rowFilter category organisation))
  rows.map (fun s => { standard := s, relevanceScore := 1, matchedFields := [] })

/-- DatabaseManager.getMatchedFields: case-insensitive containment of the
whole query string in the row's title, content, summary and stored tags
text. -/
def getMatchedFields (s : Standard) (query : String) : List String :=
  let queryLower := lowerStr query
  let f1 := if strContains (lowerStr s.title) queryLower then ["title"] else []
  let f2 := if strContains (lowerStr s.content) queryLower then ["content"] else []
  let f3 := match s.summary with
    | some sm => if !sm.isEmpty && strContains (lowerStr sm) queryLower then ["summary"] else []
    | none => []
  let tagsText := jsonArrayEncode s.tags
  let f4 := if !tagsText.isEmpty && strContains (lowerStr tagsText) queryLower then ["tags"] else []
  f1 ++ f2 ++ f3 ++ f4

/-- ORDER BY score: ascending order on the raw bm25 scores. -/
def rawLE (a b : Standard × ℚ) : Prop := a.2 ≤ b.2

instance : DecidableRel rawLE := fun a b => inferInstanceAs (Decidable (a.2 ≤ b.2))

instance : IsTotal (Standard × ℚ) rawLE := ⟨fun a b => le_total a.2 b.2⟩

instance : IsTrans (Standard × ℚ) rawLE := ⟨fun _ _ _ h1 h2 => le_trans h1 h2⟩

/-- The FTS branch of searchStandards.  The FTS5 MATCH relation is external:
ftsMatches is the list of standards rows whose indexed text matches the
query, paired with their raw bm25 scores.  The WHERE filters are applied,
the rows are ordered by raw score ascending, and the exposed relevance score
is the absolute value of the raw score. -/
def searchStandardsFTS (ftsMatches : List (Standard × ℚ)) (query : String)
    (category organisation : Option String) : List SearchResult :=
  let filtered := ftsMatches.filter (fun m => rowFilter category organisation m.1)
  let ordered := List.insertionSort rawLE filtered
  ordered.map (fun m =>
    { standard := m.1, relevanceScore := |m.2|, matchedFields := getMatchedFields m.1 query })

/-- DatabaseManager.searchStandards: empty or whitespace-only queries take the
no-query branch, every other query the FTS branch. -/
def searchStandards (ftsMatches : List (Standard × ℚ)) (db : List Standard) (query : String)
    (category organisation : Option String) : List SearchResult :=
  if trimStr query = "" then searchStandardsNoQuery db category organisation
  else searchStandardsFTS ftsMatches query category organisation

/-! ### FTS corruption recovery (DatabaseManager.all / rebuildFTSIndex) -/

/-- The corruption signature test of DatabaseManager.all on the error
message. -/
def isCorruptionError (msg : String) : Bool :=
  strContains msg "database disk image is malformed" || strContains msg "fts5: syntax error"

/-- DatabaseManager.rebuildFTSIndex: drop the standards_fts table, recreate it
empty, then repopulate it from the standards content table with the FTS5
rebuild command. -/
def rebuildFTSIndex (db : DbState) : DbState :=
  let dropped : DbState := { db with fts := [] }
  { dropped with fts := dropped.standards.map toFtsEntry }

/-- The recovery wrapper of DatabaseManager.all: a failing query whose error
message carries the corruption signature triggers one rebuild followed by one
retry whose outcome (success or failure) is final; any other error is
returned unchanged without touching the index. -/
def allWithRecovery {α : Type} (query : DbState → Except String (List α)) (db : DbState) :
    Except String (List α) × DbState :=
  match query db with
  | .ok rows => (.ok rows, db)
  | .error e =>
    if isCorruptionError e then
      let rebuilt := rebuildFTSIndex db
      (query rebuilt, rebuilt)
    else (.error e, db)

/-! ### Hybrid search (DatabaseManager.hybridSearch) -/

/-- The metadata stored alongside a vector in the Chroma collection
(VectorStorageService.addStandard; absent optional fields are stored as the
empty string). -/
structure VecMeta where
  title : String
  category : String
  sourceOrg : String
  complianceLevel : String
  url : String
  tags : String
  lastUpdated : String
  createdAt : String
deriving DecidableEq, Repr

/-- One semantic search result (VectorStorageService.semanticSearch). -/
structure VecResult where
  id : String
  score : ℚ
  metadata : VecMeta
  document : String
deriving DecidableEq, Repr

/-- Typed reading of the compliance-level string stored in the vector
metadata (the empty string encodes absence, matching the or-undefined
coercion in the source). -/
def complianceLevelOfString (s : String) : Option ComplianceLevel :=
  if s = "mandatory" then some .mandatory
  else if s = "recommended" then some .recommended
  else if s = "optional" then some .optional
  else none

/-- The standard synthesised from vector metadata alone for a semantic-only
hit (hybridSearch).  parseTags is JSON.parse on the stored tags text; its
failure (none) models the exception that aborts the fusion. -/
def synthStandard (parseTags : String → Option (List String)) (v : VecResult) : Option Standard :=
  match (if v.metadata.tags.isEmpty then some [] else parseTags v.metadata.tags) with
  | none => none
  | some tags => some
    { id := v.id
      title := v.metadata.title
      category := v.metadata.category
      url := v.metadata.url
      content := (⟨v.document.data.take 500⟩ : String) ++ "..."
      summary := none
      lastUpdated := if v.metadata.lastUpdated.isEmpty then none else some v.metadata.lastUpdated
      sourceOrg := if v.metadata.sourceOrg.isEmpty then none else some v.metadata.sourceOrg
      tags := tags
      complianceLevel := complianceLevelOfString v.metadata.complianceLevel
      relatedStandards := [] }

/-- The JS Map from document id to combined result, as an insertion-ordered
association list. -/
abbrev ResMap := List (String × SearchResult)

/-- Map.prototype.get. -/
def rmLookup (k : String) : ResMap → Option SearchResult
  | [] => none
  | (k2, v) :: rest => if k2 = k then some v else rmLookup k rest

/-- Map.prototype.set: update the entry in place when the key is present,
append otherwise. -/
def rmSet (m : ResMap) (k : String) (v : SearchResult) : ResMap :=
  if (rmLookup k m).isSome then m.map (fun p => if p.1 = k then (k, v) else p)
  else m ++ [(k, v)]

/-- An FTS result entering the combined map: its score is scaled by
(1 - semanticWeight). -/
def scaleFtsResult (w : ℚ) (r : SearchResult) : SearchResult :=
  { r with relevanceScore := r.relevanceScore * (1 - w) }

/-- Phase 1 of the fusion: add every FTS result to the map under its
document id. -/
def addFtsResults (w : ℚ) (ftsResults : List SearchResult) : ResMap :=
  ftsResults.foldl (fun m r => rmSet m r.standard.id (scaleFtsResult w r)) []

/-- A semantic hit landing on an existing lexical entry: add score times
semanticWeight and append the semantic matched-field marker. -/
def bumpSemantic (w : ℚ) (v : VecResult) (r : SearchResult) : SearchResult :=
  { r with relevanceScore := r.relevanceScore + v.score * w,
           matchedFields := r.matchedFields ++ ["semantic"] }

/-- Phase 2 of the fusion, one semantic result: enhance the existing entry or
synthesise a new one (which can fail when the stored tags text does not
parse). -/
def addVecResult (parseTags : String → Option (List String)) (w : ℚ) (m : ResMap)
    (v : VecResult) : Option ResMap :=
  match rmLookup v.id m with
  | some r => some (m.map (fun p => if p.1 = v.id then (v.id, bumpSemantic w v r) else p))
  | none =>
    match synthStandard parseTags v with
    | none => none
    | some std => some (m ++ [(v.id,
        { standard := std, relevanceScore := v.score * w, matchedFields := ["semantic"] })])

/-- Descending order on combined relevance scores (the JS comparator
(a, b) =\x3e b.relevanceScore - a.relevanceScore). -/
def srGE (a b : SearchResult) : Prop := b.relevanceScore ≤ a.relevanceScore

instance : DecidableRel srGE :=
  fun a b => inferInstanceAs (Decidable (b.relevanceScore ≤ a.relevanceScore))

instance : IsTotal SearchResult srGE :=
  ⟨fun a b => (le_total b.relevanceScore a.relevanceScore).imp (fun h => h) (fun h => h)⟩

instance : IsTrans SearchResult srGE := ⟨fun _ _ _ h1 h2 => le_trans h2 h1⟩

/-- The fusion body of hybridSearch: build the combined map, then sort its
values descending by combined score and keep the first maxResults. -/
def fuseResults (parseTags : String → Option (List String)) (w : ℚ) (maxResults : Nat)
    (ftsResults : List SearchResult) (vectorResults : List VecResult) :
    Option (List SearchResult) :=
  match vectorResults.foldlM (addVecResult parseTags w) (addFtsResults w ftsResults) with
  | none => none
  | some m => some ((List.insertionSort srGE (m.map (fun p => p.2))).take maxResults)

/-- DatabaseManager.hybridSearch over the outcomes of its two search branches.
A failure of the semantic branch is absorbed as an empty vector result list;
a failure inside the fusion is caught by the outer handler, which re-runs the
lexical search against the unchanged store and returns its (identical)
results; a failure of the lexical branch itself reaches the same handler,
whose re-run fails the same way, so that error propagates. -/
def hybridSearch (parseTags : String → Option (List String)) (w : ℚ) (maxResults : Nat)
    (ftsSearch : Except String (List SearchResult))
    (semanticSearch : Except String (List VecResult)) : Except String (List SearchResult) :=
  match ftsSearch with
  | .error e => .error e
  | .ok ftsResults =>
    let vectorResults := match semanticSearch with
      | .ok v => v
      | .error _ => []
    match fuseResults parseTags w maxResults ftsResults vectorResults with
    | some results => .ok results
    | none => .ok ftsResults

/-! ### Claim C4: compliance-level decision rule -/

/-- C4: the classifier returns mandatory iff the mandatory count strictly
exceeds both other counts; otherwise recommended iff the recommended count
strictly exceeds the optional count; otherwise optional iff the optional
count is positive; otherwise no compliance level.  A mandatory/recommended
tie falls through to the recommended-vs-optional comparison, and the four
example contents classify as mandatory, recommended, optional and unset. -/
theorem compliance_decision_rule (content : String) :
    (determineComplianceLevel content = some ComplianceLevel.mandatory ↔
      recommendedCount content < mandatoryCount content ∧
      optionalCount content < mandatoryCount content) ∧
    (determineComplianceLevel content = some ComplianceLevel.recommended ↔
      ¬(recommendedCount content < mandatoryCount content ∧
        optionalCount content < mandatoryCount content) ∧
      optionalCount content < recommendedCount content) ∧
    (determineComplianceLevel content = some ComplianceLevel.optional ↔
      ¬(recommendedCount content < mandatoryCount content ∧
        optionalCount content < mandatoryCount content) ∧
      ¬(optionalCount content < recommendedCount content) ∧
      0 < optionalCount content) ∧
    (determineComplianceLevel content = none ↔
      ¬(recommendedCount content < mandatoryCount content ∧
        optionalCount content < mandatoryCount content) ∧
      ¬(optionalCount content < recommendedCount content) ∧
      optionalCount content = 0) ∧
    determineComplianceLevel "Services must implement HTTPS and must log access." =
      some ComplianceLevel.mandatory ∧
    determineComplianceLevel "Services should implement caching. This is recommended." =
      some ComplianceLevel.recommended ∧
    determineComplianceLevel "Services may cache responses." = some ComplianceLevel.optional ∧
    determineComplianceLevel "Digital inclusion matters to everyone." = none := by
  refine ⟨?_, ?_, ?_, ?_, by decide, by decide, by decide, by decide⟩ <;>
    · unfold determineComplianceLevel
      split_ifs with h1 h2 h3 <;> simp_all <;> omega

/-! ### Claim C3: FTS corruption self-healing -/

/-- C3: a successful query is returned as is; a failing query whose error
carries the corruption signature triggers drop-recreate-rebuild of the FTS
index from the primary records followed by exactly one retry whose error, if
any, propagates; a failing query without the corruption signature propagates
immediately with the state untouched. -/
theorem all_corruption_recovery {α : Type} (query : DbState → Except String (List α))
    (db : DbState) :
    (∀ rows, query db = .ok rows → allWithRecovery query db = (.ok rows, db)) ∧
    (∀ e, query db = .error e → isCorruptionError e = true →
      allWithRecovery query db = (query (rebuildFTSIndex db), rebuildFTSIndex db) ∧
      (rebuildFTSIndex db).fts = db.standards.map toFtsEntry ∧
      (rebuildFTSIndex db).standards = db.standards ∧
      (∀ e2, query (rebuildFTSIndex db) = .error e2 →
        (allWithRecovery query db).1 = .error e2)) ∧
    (∀ e, query db = .error e → isCorruptionError e = false →
      allWithRecovery query db = (.error e, db)) := by
  refine ⟨?_, ?_, ?_⟩
  · intro rows h
    simp [allWithRecovery, h]
  · intro e h hc
    refine ⟨by simp [allWithRecovery, h, hc], rfl, rfl, ?_⟩
    intro e2 h2
    simp [allWithRecovery, h, hc, h2]
  · intro e h hc
    simp [allWithRecovery, h, hc]

/-- A concrete standard for exercising the corruption-recovery wrapper. -/
def c3Std : Standard :=
  { id := "api-design-0a1b2c3d"
    title := "API design"
    category := "APIs"
    url := "https://www.gov.uk/guidance/api-design"
    content := "Design APIs so that they follow the common government standards for interfaces."
    summary := none
    lastUpdated := none
    sourceOrg := some "GDS"
    tags := ["api"]
    complianceLevel := none
    relatedStandards := [] }

/-- A store whose primary table has one record while the derived FTS index
has been lost. -/
def c3Db : DbState := { standards := [c3Std], categories := [("APIs", 1)], fts := [] }

/-- A query that fails with the FTS5 corruption signature while the index is
empty and succeeds once the index has entries. -/
def c3Query : DbState → Except String (List String) := fun st =>
  if st.fts.length = 0 then .error "fts5: syntax error"
  else .ok (st.fts.map (fun e => e.id))

/-- Witness for C3: on the concrete corrupted store the wrapper rebuilds the
index from the primary record and the retry succeeds. -/
theorem all_corruption_recovery_witness :
    allWithRecovery c3Query c3Db = (.ok ["api-design-0a1b2c3d"], rebuildFTSIndex c3Db) ∧
    (rebuildFTSIndex c3Db).fts = [toFtsEntry c3Std] := by
  have h := (all_corruption_recovery c3Query c3Db).2.1 "fts5: syntax error" rfl (by decide)
  exact ⟨h.1.trans (by rfl), by rfl⟩

/-! ### Claim C7: validation accumulates all violations -/

/-- A document missing id and title, with a malformed URL but valid content
and category. -/
def c7Doc : Standard :=
  { id := ""
    title := ""
    category := "Security"
    url := "not a url"
    content := "This body of content is quite clearly longer than fifty characters in total length."
    summary := none
    lastUpdated := none
    sourceOrg := none
    tags := []
    complianceLevel := none
    relatedStandards := [] }

/-- C7: validation accumulates one error message per violated rule (id
present, title present, url valid, content at least 50 characters, category
present) without short-circuiting, valid holds exactly when no rule is
violated, and the document missing id and title with a malformed url yields
exactly the three corresponding errors. -/
theorem validateStandard_accumulation (isValidUrl : String → Bool) (s : Standard) :
    ((validateStandard isValidUrl s).valid = true ↔
      (validateStandard isValidUrl s).errors = []) ∧
    ("Standard ID is required" ∈ (validateStandard isValidUrl s).errors ↔
      (s.id = "" ∨ trimStr s.id = "")) ∧
    ("Standard title is required" ∈ (validateStandard isValidUrl s).errors ↔
      (s.title = "" ∨ trimStr s.title = "")) ∧
    ("Valid URL is required" ∈ (validateStandard isValidUrl s).errors ↔
      (s.url = "" ∨ isValidUrl s.url = false)) ∧
    ("Standard content must be at least 50 characters long" ∈
        (validateStandard isValidUrl s).errors ↔
      (s.content = "" ∨ (trimStr s.content).length < 50)) ∧
    ("Standard category is required" ∈ (validateStandard isValidUrl s).errors ↔
      (s.category = "" ∨ trimStr s.category = "")) ∧
    (validateStandard isValidUrl s).errors.length =
      ((if s.id = "" ∨ trimStr s.id = "" then 1 else 0) +
       (if s.title = "" ∨ trimStr s.title = "" then 1 else 0) +
       (if s.url = "" ∨ isValidUrl s.url = false then 1 else 0) +
       (if s.content = "" ∨ (trimStr s.content).length < 50 then 1 else 0) +
       (if s.category = "" ∨ trimStr s.category = "" then 1 else 0)) ∧
    (isValidUrl c7Doc.url = false →
      (validateStandard isValidUrl c7Doc).errors =
        ["Standard ID is required", "Standard title is required", "Valid URL is required"]) := by
  constructor
  · unfold validateStandard
    by_cases h1 : (s.id = "" ∨ trimStr s.id = "") <;>
      by_cases h2 : (s.title = "" ∨ trimStr s.title = "") <;>
        by_cases h3 : (s.url = "" ∨ isValidUrl s.url = false) <;>
          by_cases h4 : (s.content = "" ∨ (trimStr s.content).length < 50) <;>
            by_cases h5 : (s.category = "" ∨ trimStr s.category = "") <;>
              simp [h1, h2, h3, h4, h5]
  refine ⟨?_, ?_, ?_, ?_, ?_, ?_, ?_⟩ <;>
    first
    | · unfold validateStandard
        by_cases h1 : (s.id = "" ∨ trimStr s.id = "") <;>
          by_cases h2 : (s.title = "" ∨ trimStr s.title = "") <;>
            by_cases h3 : (s.url = "" ∨ isValidUrl s.url = false) <;>
              by_cases h4 : (s.content = "" ∨ (trimStr s.content).length < 50) <;>
                by_cases h5 : (s.category = "" ∨ trimStr s.category = "") <;>
                  simp [h1, h2, h3, h4, h5]
    | · intro hf
        have h1 : (c7Doc.id = "" ∨ trimStr c7Doc.id = "") := by decide
        have h2 : (c7Doc.title = "" ∨ trimStr c7Doc.title = "") := by decide
        have h3 : (c7Doc.url = "" ∨ isValidUrl c7Doc.url = false) := Or.inr hf
        have h4 : ¬(c7Doc.content = "" ∨ (trimStr c7Doc.content).length < 50) := by decide
        have h5 : ¬(c7Doc.category = "" ∨ trimStr c7Doc.category = "") := by decide
        simp [validateStandard, h1, h2, h3, h4, h5]

/-- Witness for C7: with a URL validator rejecting everything, the concrete
document accumulates exactly its three violations. -/
theorem validateStandard_accumulation_witness :
    (validateStandard (fun _ => false) c7Doc).errors =
      ["Standard ID is required", "Standard title is required", "Valid URL is required"] :=
  (validateStandard_accumulation (fun _ => false) c7Doc).2.2.2.2.2.2.2 rfl

/-! ### Concrete example standards shared by several witnesses -/

/-- A concrete API standard. -/
def exStdA : Standard :=
  { id := "apis-oauth-00000001"
    title := "API OAuth standard"
    category := "APIs"
    url := "https://example.gov.uk/apis/oauth"
    content := "Use OAuth and REST over HTTPS for all government APIs."
    summary := none
    lastUpdated := none
    sourceOrg := some "GDS"
    tags := ["api", "oauth"]
    complianceLevel := none
    relatedStandards := [] }

/-- A concrete accessibility standard. -/
def exStdB : Standard :=
  { id := "wcag-access-00000002"
    title := "Accessibility standard"
    category := "Accessibility"
    url := "https://example.gov.uk/accessibility/wcag"
    content := "Meet WCAG and test with a screen reader for accessibility."
    summary := none
    lastUpdated := none
    sourceOrg := some "GDS"
    tags := ["wcag"]
    complianceLevel := none
    relatedStandards := [] }

/-! ### Claim C10: matched-field attribution can be empty for a matched row -/

/-- A standard matched by the FTS engine at token level for the query
"security authentication" (both tokens occur in its indexed text) although
no single field contains the whole query string. -/
def c10Std : Standard :=
  { id := "security-guidance-33445566"
    title := "Security guidance"
    category := "Security"
    url := "https://example.gov.uk/security/guidance"
    content := "Use strong passwords and enable multi factor authentication for all accounts."
    summary := none
    lastUpdated := none
    sourceOrg := some "NCSC"
    tags := []
    complianceLevel := none
    relatedStandards := [] }

/-- C10: matched-field attribution tests containment of the entire query
string, so a document returned by the token-level FTS match can come back
with an empty matchedFields set: concretely, for the two-token query
"security authentication" the matched row is returned with matchedFields
empty. -/
theorem matchedFields_empty_possible :
    getMatchedFields c10Std "security authentication" = [] ∧
    searchStandards [(c10Std, -1)] [c10Std] "security authentication" none none =
      [{ standard := c10Std, relevanceScore := 1, matchedFields := [] }] := by
  constructor
  · decide
  · decide

/-! ### Claim C5: empty-query lexical search -/

/-- C5: a lexical search whose query is empty or whitespace-only returns
exactly the documents passing the category/organisation filters, ordered by
title, each with the sentinel score 1 and no matched fields, so the result
count equals the count of stored documents satisfying the filters. -/
theorem searchStandards_empty_query (ftsMatches : List (Standard × ℚ)) (db : List Standard)
    (query : String) (category organisation : Option String) (hq : trimStr query = "") :
    ((searchStandards ftsMatches db query category organisation).map
        (fun r => r.standard)).Perm (db.filter (rowFilter category organisation)) ∧
    List.Sorted titleLE
      ((searchStandards ftsMatches db query category organisation).map
        (fun r => r.standard)) ∧
    (∀ r ∈ searchStandards ftsMatches db query category organisation,
      r.relevanceScore = 1 ∧ r.matchedFields = []) ∧
    (searchStandards ftsMatches db query category organisation).length =
      (db.filter (rowFilter category organisation)).length := by
  have hout : searchStandards ftsMatches db query category organisation =
      searchStandardsNoQuery db category organisation := by
    simp [searchStandards, hq]
  rw [hout]
  unfold searchStandardsNoQuery
  have hmapstd :
      ((List.insertionSort titleLE (db.filter (rowFilter category organisation))).map
        (fun s => ({ standard := s, relevanceScore := 1, matchedFields := [] } : SearchResult))).map
          (fun r => r.standard) =
      List.insertionSort titleLE (db.filter (rowFilter category organisation)) := by
    generalize List.insertionSort titleLE (db.filter (rowFilter category organisation)) = l
    induction l with
    | nil => rfl
    | cons a t ih => simp [ih]
  refine ⟨?_, ?_, ?_, ?_⟩
  · rw [hmapstd]
    exact List.perm_insertionSort titleLE _
  · rw [hmapstd]
    exact List.sorted_insertionSort titleLE _
  · intro r hr
    rcases List.mem_map.mp hr with ⟨s, _, rfl⟩
    exact ⟨rfl, rfl⟩
  · rw [List.length_map]
    exact (List.perm_insertionSort titleLE _).length_eq

/-- Witness for C5: on a concrete two-document store with a whitespace query
and a category filter, the result count equals the filtered count. -/
theorem searchStandards_empty_query_witness :
    trimStr "  " = "" ∧
    (searchStandards [] [exStdA, exStdB] "  " (some "APIs") none).length =
      ([exStdA, exStdB].filter (rowFilter (some "APIs") none)).length :=
  ⟨by decide,
    (searchStandards_empty_query [] [exStdA, exStdB] "  " (some "APIs") none (by decide)).2.2.2⟩

/-! ### Claim C9: lexical score inversion and ordering -/

/-- C9: for a non-empty query, the FTS branch returns exactly the matching
rows that pass the exact-match filters; every returned entry exposes the
absolute value of its raw bm25 score, which on the bm25 convention (raw
scores nonpositive, lower = better) is the inverted score, nonnegative with
higher = better; and the returned list is ordered best-match-first, that is,
non-increasing in the exposed relevance score. -/
theorem searchStandards_score_inversion (ftsMatches : List (Standard × ℚ)) (db : List Standard)
    (query : String) (category organisation : Option String)
    (hq : ¬ trimStr query = "") (hraw : ∀ m ∈ ftsMatches, m.2 ≤ 0) :
    ((searchStandards ftsMatches db query category organisation).map
        (fun r => r.standard)).Perm
      ((ftsMatches.filter (fun m => rowFilter category organisation m.1)).map
        (fun m => m.1)) ∧
    (∀ r ∈ searchStandards ftsMatches db query category organisation,
      ∃ m, m ∈ ftsMatches ∧ rowFilter category organisation m.1 = true ∧
        r.standard = m.1 ∧ r.relevanceScore = |m.2| ∧ r.relevanceScore = -m.2 ∧
        0 ≤ r.relevanceScore ∧ r.matchedFields = getMatchedFields m.1 query) ∧
    List.Sorted srGE (searchStandards ftsMatches db query category organisation) := by
  have hout : searchStandards ftsMatches db query category organisation =
      searchStandardsFTS ftsMatches query category organisation := by
    simp [searchStandards, hq]
  rw [hout]
  unfold searchStandardsFTS
  have hperm := List.perm_insertionSort rawLE
    (ftsMatches.filter (fun m => rowFilter category organisation m.1))
  have hmem : ∀ m ∈ List.insertionSort rawLE
      (ftsMatches.filter (fun m => rowFilter category organisation m.1)),
      m ∈ ftsMatches ∧ rowFilter category organisation m.1 = true := by
    intro m hm
    have := hperm.mem_iff.mp hm
    exact List.mem_filter.mp this
  refine ⟨?_, ?_, ?_⟩
  · rw [List.map_map]
    exact hperm.map (fun m => m.1)
  · intro r hr
    rcases List.mem_map.mp hr with ⟨m, hm, rfl⟩
    rcases hmem m hm with ⟨hmf, hflt⟩
    have hneg : m.2 ≤ 0 := hraw m hmf
    refine ⟨m, hmf, hflt, rfl, rfl, abs_of_nonpos hneg, ?_, rfl⟩
    simp [abs_nonneg]
  · rw [List.Sorted, List.pairwise_map]
    have hsorted := List.sorted_insertionSort rawLE
      (ftsMatches.filter (fun m => rowFilter category organisation m.1))
    refine hsorted.imp_of_mem ?_
    intro a b ha hb hab
    have hbneg : b.2 ≤ 0 := hraw b (hmem b hb).1
    show |b.2| ≤ |a.2|
    rw [abs_of_nonpos hbneg, abs_of_nonpos (le_trans hab hbneg)]
    exact neg_le_neg hab

/-- Witness for C9: two concrete matches with raw bm25 scores -2 and -1 come
back ordered best-match-first with exposed scores 2 and 1. -/
theorem searchStandards_score_inversion_witness :
    (¬ trimStr "api" = "") ∧
    List.Sorted srGE (searchStandards [(exStdA, -2), (exStdB, -1)] [] "api" none none) :=
  ⟨by decide,
    (searchStandards_score_inversion [(exStdA, -2), (exStdB, -1)] [] "api" none none
      (by decide) (by decide)).2.2⟩

/-! ### Claim C6: ingestion idempotence -/

/-- Keeping the complement of a predicate is idempotent. -/
theorem filterNotIdem {α : Type} (l : List α) (p : α → Bool) :
    (l.filter (fun a => !(p a))).filter (fun a => !(p a)) = l.filter (fun a => !(p a)) := by
  rw [List.filter_filter]
  apply List.filter_congr
  intro a _
  cases hp : p a <;> simp [hp]

/-- C6 (the code falls short of the claim): the document id is a
deterministic function of the source URL alone, and the primary standards
table is idempotent under re-ingestion — exactly one record per id, the
second insert fully replacing the first.  The store as a whole, however, is
never left in the single-ingestion state: the standards_fts delete trigger
does not fire for the row removed by INSERT OR REPLACE conflict resolution
(recursive_triggers is never enabled), so every re-ingestion appends a
fresh index entry next to the stale one and the state after two ingestions
always differs from the state after one. -/
theorem ingest_fts_duplication (pathname md5hex : String → String) (p : ScrapedPage)
    (s : Standard) (db : DbState) :
    (processScrapedPage pathname md5hex p).id = generateStandardId pathname md5hex p.url ∧
    (insertStandard s db).standards.filter (fun r => decide (r.id = s.id)) = [s] ∧
    (insertStandard s (insertStandard s db)).standards = (insertStandard s db).standards ∧
    (insertStandard s db).fts = db.fts ++ [toFtsEntry s] ∧
    (insertStandard s (insertStandard s db)).fts =
      db.fts ++ [toFtsEntry s, toFtsEntry s] ∧
    insertStandard s (insertStandard s db) ≠ insertStandard s db := by
  have hconfl : conflictsWith s s = true := by simp [conflictsWith]
  have hstd1 : (insertStandard s db).standards =
      db.standards.filter (fun r => !(conflictsWith s r)) ++ [s] := rfl
  have hone : (insertStandard s db).standards.filter (fun r => decide (r.id = s.id)) = [s] := by
    rw [hstd1, List.filter_append]
    have hnil : (db.standards.filter (fun r => !(conflictsWith s r))).filter
        (fun r => decide (r.id = s.id)) = [] := by
      apply List.filter_eq_nil_iff.mpr
      intro r hr
      rcases List.mem_filter.mp hr with ⟨_, hcr⟩
      intro hdec
      have hrid : r.id = s.id := of_decide_eq_true hdec
      have hc : conflictsWith s r = true := by simp [conflictsWith, hrid]
      rw [hc] at hcr
      simp at hcr
    rw [hnil]
    simp
  have hstd2 : (insertStandard s (insertStandard s db)).standards =
      (insertStandard s db).standards := by
    show (insertStandard s db).standards.filter (fun r => !(conflictsWith s r)) ++ [s] = _
    rw [hstd1, List.filter_append, filterNotIdem]
    simp [hconfl]
  have hfts1 : (insertStandard s db).fts = db.fts ++ [toFtsEntry s] := rfl
  have hfts2 : (insertStandard s (insertStandard s db)).fts =
      db.fts ++ [toFtsEntry s, toFtsEntry s] := by
    show (insertStandard s db).fts ++ [toFtsEntry s] = _
    rw [hfts1]
    simp
  refine ⟨rfl, hone, hstd2, hfts1, hfts2, ?_⟩
  intro heq
  have hlen : (insertStandard s (insertStandard s db)).fts.length =
      (insertStandard s db).fts.length := by rw [heq]
  rw [hfts1, hfts2] at hlen
  simp only [List.length_append, List.length_cons, List.length_nil] at hlen
  omega

/-! ### Claim C8: derived-field size bounds -/

/-- The generated summary never exceeds 500 characters. -/
theorem generateSummaryLength (content : String) : (generateSummary content 500).length ≤ 500 := by
  unfold generateSummary
  split
  · decide
  · split
    · rename_i hlong
      rw [String.length_append]
      have htake : ((⟨(summaryJoined content).data.take (500 - 3)⟩ : String)).length =
          ((summaryJoined content).data.take (500 - 3)).length := rfl
      rw [htake]
      have := List.length_take_le (500 - 3) (summaryJoined content).data
      have hdots : ("..." : String).length = 3 := rfl
      omega
    · rename_i hshort
      omega

/-- Adding an element different from y to a set not containing y keeps y
out. -/
theorem setAddNotMem (l : List String) (x y : String) (h : y ∉ l) (hne : x ≠ y) :
    y ∉ setAdd l x := by
  unfold setAdd
  split
  · exact h
  · intro hmem
    rcases List.mem_append.mp hmem with hl | hx
    · exact h hl
    · exact hne (List.mem_singleton.mp hx).symm

/-- Conditionally adding an element different from y keeps y out. -/
theorem condSetAddNotMem (c : Prop) [Decidable c] (l : List String) (x y : String)
    (h : y ∉ l) (hne : x ≠ y) : y ∉ (if c then setAdd l x else l) := by
  split
  · exact setAddNotMem l x y h hne
  · exact h

/-- One related-discovery step never introduces the document's own id. -/
theorem relatedStepNotSelf (s other : Standard) (acc : List String) (h : s.id ∉ acc) :
    s.id ∉ relatedStep s acc other := by
  unfold relatedStep
  split
  · exact h
  · rename_i hne
    have hne2 : other.id ≠ s.id := hne
    exact condSetAddNotMem _ _ _ _ (condSetAddNotMem _ _ _ _ (condSetAddNotMem _ _ _ _ h hne2) hne2) hne2

/-- The related-discovery fold never introduces the document's own id. -/
theorem foldlRelatedNotSelf (s : Standard) (allStandards : List Standard) (acc : List String)
    (h : s.id ∉ acc) : s.id ∉ allStandards.foldl (relatedStep s) acc := by
  induction allStandards generalizing acc with
  | nil => exact h
  | cons a t ih => exact ih _ (relatedStepNotSelf s a acc h)

/-- C8: every classified document has at most 20 tags and a summary of at
most 500 characters when one is present, and related-standard discovery
returns at most 10 ids, never including the document's own id. -/
theorem derived_field_bounds (pathname md5hex : String → String) (p : ScrapedPage)
    (standard : Standard) (allStandards : List Standard) :
    (processScrapedPage pathname md5hex p).tags.length ≤ 20 ∧
    (∀ sm, (processScrapedPage pathname md5hex p).summary = some sm → sm.length ≤ 500) ∧
    (findRelatedStandards standard allStandards).length ≤ 10 ∧
    standard.id ∉ findRelatedStandards standard allStandards := by
  refine ⟨?_, ?_, ?_, ?_⟩
  · show (extractTags p.title p.content).length ≤ 20
    unfold extractTags
    exact List.length_take_le 20 _
  · intro sm hsm
    have hgen : some (generateSummary p.content 500) = some sm := hsm
    have : generateSummary p.content 500 = sm := Option.some.injEq _ _ ▸ hgen
    rw [← this]
    exact generateSummaryLength p.content
  · unfold findRelatedStandards
    exact List.length_take_le 10 _
  · unfold findRelatedStandards
    intro hmem
    exact foldlRelatedNotSelf standard allStandards [] (List.not_mem_nil _)
      (List.take_subset _ _ hmem)

/-- Witness for C8: bounds evaluated on a concrete classified page and a
concrete two-document corpus. -/
theorem derived_field_bounds_witness :
    (findRelatedStandards exStdA [exStdA, exStdB]).length ≤ 10 ∧
    exStdA.id ∉ findRelatedStandards exStdA [exStdA, exStdB] :=
  ⟨(derived_field_bounds (fun _ => "/x") (fun _ => "00000000")
      { url := exStdA.url, title := exStdA.title, content := exStdA.content,
        lastModified := none, category := exStdA.category, sourceOrg := exStdA.sourceOrg,
        links := [] } exStdA [exStdA, exStdB]).2.2.1,
   (derived_field_bounds (fun _ => "/x") (fun _ => "00000000")
      { url := exStdA.url, title := exStdA.title, content := exStdA.content,
        lastModified := none, category := exStdA.category, sourceOrg := exStdA.sourceOrg,
        links := [] } exStdA [exStdA, exStdB]).2.2.2⟩

/-! ### Association-list lemmas for the fusion map -/

/-- Lookup in an appended map: the left part wins when it knows the key. -/
theorem rmLookupAppend (m1 m2 : ResMap) (k : String) :
    rmLookup k (m1 ++ m2) = match rmLookup k m1 with
      | some v => some v
      | none => rmLookup k m2 := by
  induction m1 with
  | nil => simp [rmLookup]
  | cons p t ih =>
    rcases p with ⟨k2, v⟩
    by_cases h : k2 = k
    · simp [rmLookup, h]
    · simp [rmLookup, h, ih]

/-- A key is absent exactly when lookup fails. -/
theorem rmLookupNoneIff (m : ResMap) (k : String) :
    rmLookup k m = none ↔ k ∉ m.map (fun p => p.1) := by
  induction m with
  | nil => simp [rmLookup]
  | cons p t ih =>
    rcases p with ⟨k2, v⟩
    by_cases h : k2 = k <;> simp [rmLookup, h, ih]
    intro hk
    exact fun heq => h heq.symm

/-- One cons step of the in-place update map. -/
theorem mapUpdateCons (k2 : String) (v2 : SearchResult) (t : ResMap) (k : String)
    (v : SearchResult) :
    ((k2, v2) :: t).map (fun p => if p.1 = k then (k, v) else p) =
      (if k2 = k then (k, v) else (k2, v2)) :: t.map (fun p => if p.1 = k then (k, v) else p) :=
  rfl

/-- After an in-place update at key k, looking k up returns the new value
whenever the key was present. -/
theorem rmLookupUpdateSelf (m : ResMap) (k : String) (v : SearchResult) :
    rmLookup k (m.map (fun p => if p.1 = k then (k, v) else p)) =
      (rmLookup k m).map (fun _ => v) := by
  induction m with
  | nil => simp [rmLookup]
  | cons p t ih =>
    rcases p with ⟨k2, v2⟩
    rw [mapUpdateCons]
    by_cases h : k2 = k
    · rw [if_pos h]
      simp [rmLookup, h]
    · rw [if_neg h]
      simp [rmLookup, h, ih]

/-- An in-place update at key k leaves every other lookup unchanged. -/
theorem rmLookupUpdateOther (m : ResMap) (k : String) (v : SearchResult) (d : String)
    (hd : d ≠ k) :
    rmLookup d (m.map (fun p => if p.1 = k then (k, v) else p)) = rmLookup d m := by
  induction m with
  | nil => simp [rmLookup]
  | cons p t ih =>
    rcases p with ⟨k2, v2⟩
    rw [mapUpdateCons]
    by_cases h : k2 = k
    · subst h
      rw [if_pos rfl]
      have hne : ¬ (k2 = d) := fun heq => hd heq.symm
      simp [rmLookup, hne, ih]
    · rw [if_neg h]
      by_cases h2 : k2 = d
      · subst h2
        simp [rmLookup]
      · simp [rmLookup, h2, ih]

/-- An in-place update preserves the key list. -/
theorem rmKeysUpdate (m : ResMap) (k : String) (v : SearchResult) :
    (m.map (fun p => if p.1 = k then (k, v) else p)).map (fun p => p.1) =
      m.map (fun p => p.1) := by
  induction m with
  | nil => rfl
  | cons p t ih =>
    rcases p with ⟨k2, v2⟩
    rw [mapUpdateCons]
    by_cases h : k2 = k
    · rw [if_pos h]
      simp [h, ih]
    · rw [if_neg h]
      simp [ih]

/-- A successful lookup exhibits a member of the map. -/
theorem rmLookupMem (m : ResMap) (k : String) (v : SearchResult)
    (h : rmLookup k m = some v) : (k, v) ∈ m := by
  induction m with
  | nil => simp [rmLookup] at h
  | cons p t ih =>
    rcases p with ⟨k2, v2⟩
    by_cases hk : k2 = k
    · subst hk
      simp [rmLookup] at h
      simp [h]
    · simp [rmLookup, hk] at h
      exact List.mem_cons_of_mem _ (ih h)

/-- In a map with no duplicate keys, membership determines the lookup. -/
theorem rmLookupOfMemNodup (m : ResMap) (k : String) (v : SearchResult)
    (hnd : (m.map (fun p => p.1)).Nodup) (hmem : (k, v) ∈ m) : rmLookup k m = some v := by
  induction m with
  | nil => cases hmem
  | cons p t ih =>
    rcases p with ⟨k2, v2⟩
    simp only [List.map_cons, List.nodup_cons] at hnd
    rcases List.mem_cons.mp hmem with heq | htail
    · rcases Prod.mk.injEq .. ▸ heq with ⟨hk, hv⟩
      subst hk; subst hv
      simp [rmLookup]
    · have hk : ¬ (k2 = k) := by
        intro heq
        subst heq
        exact hnd.1 (List.mem_map.mpr ⟨(k2, v), htail, rfl⟩)
      simp [rmLookup, hk]
      exact ih hnd.2 htail

/-- The standard synthesised for a semantic-only hit carries the hit's id. -/
theorem synthStandardId (parseTags : String → Option (List String)) (v : VecResult)
    (std : Standard) (h : synthStandard parseTags v = some std) : std.id = v.id := by
  unfold synthStandard at h
  cases hm : (if v.metadata.tags.isEmpty then some [] else parseTags v.metadata.tags) with
  | none =>
    rw [hm] at h
    cases h
  | some tags =>
    rw [hm] at h
    have := Option.some_inj.mp h
    rw [← this]

/-- Processing semantic results whose ids differ from d leaves the lookup at
d unchanged. -/
theorem addVecLookupFresh (parseTags : String → Option (List String)) (w : ℚ)
    (V : List VecResult) (m m2 : ResMap)
    (h : V.foldlM (addVecResult parseTags w) m = some m2) (d : String)
    (hd : ∀ v ∈ V, v.id ≠ d) : rmLookup d m2 = rmLookup d m := by
  induction V generalizing m with
  | nil =>
    simp only [List.foldlM_nil] at h
    cases h
    rfl
  | cons v t ih =>
    cases hstep : addVecResult parseTags w m v with
    | none =>
      rw [List.foldlM_cons, hstep] at h
      simp at h
    | some m1 =>
      rw [List.foldlM_cons, hstep] at h
      simp only [Option.bind_eq_bind, Option.some_bind] at h
      have hone : rmLookup d m1 = rmLookup d m := by
        unfold addVecResult at hstep
        cases hl : rmLookup v.id m with
        | some r =>
          rw [hl] at hstep
          have hm1 := Option.some_inj.mp hstep
          rw [← hm1]
          exact rmLookupUpdateOther m v.id _ d (fun he => hd v (List.mem_cons_self v t) he.symm)
        | none =>
          rw [hl] at hstep
          cases hs : synthStandard parseTags v with
          | none =>
            rw [hs] at hstep
            cases hstep
          | some std =>
            rw [hs] at hstep
            have hm1 := Option.some_inj.mp hstep
            rw [← hm1, rmLookupAppend]
            cases hdm : rmLookup d m with
            | some r2 => rfl
            | none =>
              have hne : ¬ (v.id = d) := hd v (List.mem_cons_self v t)
              simp [rmLookup, hne]
      rw [ih m1 h (fun u hu => hd u (List.mem_cons_of_mem v hu)), hone]

/-- A semantic hit on an id already known to the map bumps that entry by
score times weight and appends the semantic marker, and later hits on other
ids do not disturb it. -/
theorem addVecHitExisting (parseTags : String → Option (List String)) (w : ℚ)
    (v : VecResult) (V2 : List VecResult) (m m2 : ResMap) (r : SearchResult)
    (h : (v :: V2).foldlM (addVecResult parseTags w) m = some m2)
    (hm : rmLookup v.id m = some r)
    (hV2 : ∀ u ∈ V2, u.id ≠ v.id) :
    rmLookup v.id m2 = some (bumpSemantic w v r) := by
  cases hstep : addVecResult parseTags w m v with
  | none =>
    rw [List.foldlM_cons, hstep] at h
    simp at h
  | some m1 =>
    rw [List.foldlM_cons, hstep] at h
    simp only [Option.bind_eq_bind, Option.some_bind] at h
    have hm1 : rmLookup v.id m1 = some (bumpSemantic w v r) := by
      unfold addVecResult at hstep
      rw [hm] at hstep
      have := Option.some_inj.mp hstep
      rw [← this, rmLookupUpdateSelf, hm]
      rfl
    rw [addVecLookupFresh parseTags w V2 m1 m2 h v.id hV2, hm1]

/-- A semantic hit on an id unknown to the map synthesises a new entry with
score times weight and the semantic marker alone, undisturbed afterwards. -/
theorem addVecHitNew (parseTags : String → Option (List String)) (w : ℚ)
    (v : VecResult) (V2 : List VecResult) (m m2 : ResMap)
    (h : (v :: V2).foldlM (addVecResult parseTags w) m = some m2)
    (hm : rmLookup v.id m = none)
    (hV2 : ∀ u ∈ V2, u.id ≠ v.id) :
    ∃ std, synthStandard parseTags v = some std ∧
      rmLookup v.id m2 = some
        { standard := std, relevanceScore := v.score * w, matchedFields := ["semantic"] } := by
  cases hstep : addVecResult parseTags w m v with
  | none =>
    rw [List.foldlM_cons, hstep] at h
    simp at h
  | some m1 =>
    rw [List.foldlM_cons, hstep] at h
    simp only [Option.bind_eq_bind, Option.some_bind] at h
    unfold addVecResult at hstep
    rw [hm] at hstep
    cases hs : synthStandard parseTags v with
    | none =>
      rw [hs] at hstep
      cases hstep
    | some std =>
      rw [hs] at hstep
      refine ⟨std, rfl, ?_⟩
      have hm1 := Option.some_inj.mp hstep
      rw [addVecLookupFresh parseTags w V2 m1 m2 h v.id hV2, ← hm1, rmLookupAppend, hm]
      simp [rmLookup]

/-- The semantic phase preserves key distinctness and the key-is-document-id
invariant, and grows the map by at most one entry per semantic result. -/
theorem addVecInvariants (parseTags : String → Option (List String)) (w : ℚ)
    (V : List VecResult) (m m2 : ResMap)
    (h : V.foldlM (addVecResult parseTags w) m = some m2)
    (hnd : (m.map (fun p => p.1)).Nodup)
    (hids : ∀ p ∈ m, p.2.standard.id = p.1) :
    (m2.map (fun p => p.1)).Nodup ∧ (∀ p ∈ m2, p.2.standard.id = p.1) ∧
      m2.length ≤ m.length + V.length := by
  induction V generalizing m with
  | nil =>
    simp only [List.foldlM_nil] at h
    cases h
    exact ⟨hnd, hids, by simp⟩
  | cons v t ih =>
    cases hstep : addVecResult parseTags w m v with
    | none =>
      rw [List.foldlM_cons, hstep] at h
      simp at h
    | some m1 =>
      rw [List.foldlM_cons, hstep] at h
      simp only [Option.bind_eq_bind, Option.some_bind] at h
      have hinv1 : (m1.map (fun p => p.1)).Nodup ∧ (∀ p ∈ m1, p.2.standard.id = p.1) ∧
          m1.length ≤ m.length + 1 := by
        unfold addVecResult at hstep
        cases hl : rmLookup v.id m with
        | some r =>
          rw [hl] at hstep
          have hm1 := Option.some_inj.mp hstep
          refine ⟨?_, ?_, ?_⟩
          · rw [← hm1, rmKeysUpdate]
            exact hnd
          · intro p hp
            rw [← hm1] at hp
            rcases List.mem_map.mp hp with ⟨q, hq, rfl⟩
            by_cases hqk : q.1 = v.id
            · rw [if_pos hqk]
              have hrid : r.standard.id = v.id := hids (v.id, r) (rmLookupMem m v.id r hl)
              exact hrid
            · rw [if_neg hqk]
              exact hids q hq
          · rw [← hm1, List.length_map]
            omega
        | none =>
          rw [hl] at hstep
          cases hs : synthStandard parseTags v with
          | none =>
            rw [hs] at hstep
            cases hstep
          | some std =>
            rw [hs] at hstep
            have hm1 := Option.some_inj.mp hstep
            have hfree : v.id ∉ m.map (fun p => p.1) := (rmLookupNoneIff m v.id).mp hl
            refine ⟨?_, ?_, ?_⟩
            · rw [← hm1, List.map_append]
              refine List.Nodup.append hnd (List.nodup_singleton _) ?_
              intro x hx hx2
              rcases List.mem_singleton.mp hx2 with rfl
              exact hfree hx
            · intro p hp
              rw [← hm1] at hp
              rcases List.mem_append.mp hp with hold | hnew
              · exact hids p hold
              · rcases List.mem_singleton.mp hnew with rfl
                exact synthStandardId parseTags v std hs
            · rw [← hm1, List.length_append]
              simp
      rcases ih m1 h hinv1.1 hinv1.2.1 with ⟨h1, h2, h3⟩
      refine ⟨h1, h2, ?_⟩
      have := hinv1.2.2
      simp only [List.length_cons]
      omega

/-- Phase 1 appends one fresh entry per FTS result when the result ids are
distinct and unknown to the accumulator. -/
theorem foldRmSetEq (w : ℚ) (F : List SearchResult) (m0 : ResMap)
    (hfresh : ∀ r ∈ F, rmLookup r.standard.id m0 = none)
    (hF : (F.map (fun r => r.standard.id)).Nodup) :
    F.foldl (fun m r => rmSet m r.standard.id (scaleFtsResult w r)) m0 =
      m0 ++ F.map (fun r => (r.standard.id, scaleFtsResult w r)) := by
  induction F generalizing m0 with
  | nil => simp
  | cons f t ih =>
    simp only [List.foldl_cons, List.map_cons]
    have hset : rmSet m0 f.standard.id (scaleFtsResult w f) =
        m0 ++ [(f.standard.id, scaleFtsResult w f)] := by
      unfold rmSet
      rw [hfresh f (List.mem_cons_self f t)]
      simp
    have hfresh2 : ∀ r ∈ t,
        rmLookup r.standard.id (m0 ++ [(f.standard.id, scaleFtsResult w f)]) = none := by
      intro r hr
      rw [rmLookupAppend, hfresh r (List.mem_cons_of_mem f hr)]
      have hne : ¬ (f.standard.id = r.standard.id) := by
        simp only [List.map_cons, List.nodup_cons] at hF
        intro heq
        exact hF.1 (heq ▸ List.mem_map.mpr ⟨r, hr, rfl⟩)
      simp [rmLookup, hne]
    have hF2 : (t.map (fun r => r.standard.id)).Nodup := by
      simp only [List.map_cons, List.nodup_cons] at hF
      exact hF.2
    rw [hset, ih _ hfresh2 hF2]
    simp

/-- Phase 1 from the empty map lays the scaled FTS results out in order. -/
theorem addFtsEq (w : ℚ) (F : List SearchResult)
    (hF : (F.map (fun r => r.standard.id)).Nodup) :
    addFtsResults w F = F.map (fun r => (r.standard.id, scaleFtsResult w r)) := by
  unfold addFtsResults
  rw [foldRmSetEq w F [] (fun r _ => rfl) hF]
  rfl

/-! ### Claim C1: hybrid score fusion -/

/-- C1: when the lexical branch yields results F with distinct ids and the
semantic branch yields results V with distinct ids and the fusion succeeds
with output out, then hybridSearch returns out; any returned entry for a
document in both result sets carries score L times (1 - w) plus S times w
with the semantic marker appended to its lexical matched fields; any
returned entry for a semantic-only document carries exactly S times w and
matched fields consisting of the semantic marker; a document in both sets is
actually returned whenever maxResults is large enough; and the output is
sorted by descending fused score and truncated to maxResults. -/
theorem hybrid_fusion (parseTags : String → Option (List String)) (w : ℚ) (mx : Nat)
    (F : List SearchResult) (V : List VecResult) (out : List SearchResult)
    (hF : (F.map (fun r => r.standard.id)).Nodup)
    (hV : (V.map (fun v => v.id)).Nodup)
    (hout : fuseResults parseTags w mx F V = some out) :
    hybridSearch parseTags w mx (.ok F) (.ok V) = .ok out ∧
    (∀ f ∈ F, ∀ v ∈ V, v.id = f.standard.id → ∀ r ∈ out, r.standard.id = f.standard.id →
      r.relevanceScore = f.relevanceScore * (1 - w) + v.score * w ∧
      r.matchedFields = f.matchedFields ++ ["semantic"]) ∧
    (∀ v ∈ V, (∀ f ∈ F, f.standard.id ≠ v.id) → ∀ r ∈ out, r.standard.id = v.id →
      r.relevanceScore = v.score * w ∧ r.matchedFields = ["semantic"]) ∧
    (∀ f ∈ F, ∀ v ∈ V, v.id = f.standard.id → F.length + V.length ≤ mx →
      ∃ r ∈ out, r.standard.id = f.standard.id) ∧
    List.Sorted srGE out ∧ out.length ≤ mx := by
  cases hfold : List.foldlM (addVecResult parseTags w) (addFtsResults w F) V with
  | none =>
    unfold fuseResults at hout
    rw [hfold] at hout
    cases hout
  | some m2 =>
    have hval : out = (List.insertionSort srGE (m2.map (fun p => p.2))).take mx := by
      have h2 := hout
      unfold fuseResults at h2
      rw [hfold] at h2
      exact (Option.some_inj.mp h2).symm
    have hM0 : addFtsResults w F = F.map (fun r => (r.standard.id, scaleFtsResult w r)) :=
      addFtsEq w F hF
    have hM0keys : (addFtsResults w F).map (fun p => p.1) = F.map (fun r => r.standard.id) := by
      rw [hM0, List.map_map]
      rfl
    have hM0nd : ((addFtsResults w F).map (fun p => p.1)).Nodup := by
      rw [hM0keys]
      exact hF
    have hM0ids : ∀ p ∈ addFtsResults w F, p.2.standard.id = p.1 := by
      intro p hp
      rw [hM0] at hp
      rcases List.mem_map.mp hp with ⟨r, _, rfl⟩
      rfl
    have hM0len : (addFtsResults w F).length = F.length := by
      rw [hM0, List.length_map]
    obtain ⟨hm2nd, hm2ids, hm2len⟩ :=
      addVecInvariants parseTags w V (addFtsResults w F) m2 hfold hM0nd hM0ids
    have hM0lookup : ∀ f ∈ F,
        rmLookup f.standard.id (addFtsResults w F) = some (scaleFtsResult w f) := by
      intro f hf
      apply rmLookupOfMemNodup _ _ _ hM0nd
      rw [hM0]
      exact List.mem_map.mpr ⟨f, hf, rfl⟩
    have houtmem : ∀ r ∈ out, ∃ p ∈ m2, p.2 = r := by
      intro r hr
      rw [hval] at hr
      have hr2 : r ∈ List.insertionSort srGE (m2.map (fun p => p.2)) :=
        List.take_subset _ _ hr
      have hr3 : r ∈ m2.map (fun p => p.2) :=
        (List.perm_insertionSort srGE _).mem_iff.mp hr2
      exact List.mem_map.mp hr3
    have hlookup_out : ∀ (d : String) (x : SearchResult), rmLookup d m2 = some x →
        ∀ r ∈ out, r.standard.id = d → r = x := by
      intro d x hx r hr hid
      rcases houtmem r hr with ⟨p, hp, rfl⟩
      have hkey : p.1 = d := by
        rw [← hm2ids p hp]
        exact hid
      have hp2 : rmLookup p.1 m2 = some p.2 :=
        rmLookupOfMemNodup m2 p.1 p.2 hm2nd hp
      rw [hkey, hx] at hp2
      exact (Option.some_inj.mp hp2).symm
    have hboth : ∀ f ∈ F, ∀ v ∈ V, v.id = f.standard.id →
        rmLookup f.standard.id m2 = some (bumpSemantic w v (scaleFtsResult w f)) := by
      intro f hf v hv heq
      rcases List.append_of_mem hv with ⟨V1, V2, rfl⟩
      have hVmap : (V1 ++ v :: V2).map (fun u => u.id) =
          V1.map (fun u => u.id) ++ v.id :: V2.map (fun u => u.id) := by simp
      rw [hVmap] at hV
      have hdisj := List.disjoint_of_nodup_append hV
      have hV1 : ∀ u ∈ V1, u.id ≠ v.id := by
        intro u hu heq2
        exact hdisj (List.mem_map.mpr ⟨u, hu, rfl⟩) (heq2 ▸ List.mem_cons_self _ _)
      have hV2 : ∀ u ∈ V2, u.id ≠ v.id := by
        rcases List.nodup_cons.mp (List.Nodup.of_append_right hV) with ⟨hnotin, _⟩
        intro u hu heq2
        exact hnotin (heq2 ▸ List.mem_map.mpr ⟨u, hu, rfl⟩)
      rw [List.foldlM_append] at hfold
      cases hsplit : List.foldlM (addVecResult parseTags w) (addFtsResults w F) V1 with
      | none =>
        rw [hsplit] at hfold
        simp at hfold
      | some m1 =>
        rw [hsplit] at hfold
        simp only [Option.bind_eq_bind, Option.some_bind] at hfold
        have hm1lookup : rmLookup v.id m1 = some (scaleFtsResult w f) := by
          rw [addVecLookupFresh parseTags w V1 _ m1 hsplit v.id hV1, heq]
          exact hM0lookup f hf
        have hfinal := addVecHitExisting parseTags w v V2 m1 m2
          (scaleFtsResult w f) hfold hm1lookup hV2
        rw [← heq]
        exact hfinal
    refine ⟨by simp [hybridSearch, hout], ?_, ?_, ?_, ?_, ?_⟩
    · intro f hf v hv heq r hr hid
      have hx := hboth f hf v hv heq
      rw [hlookup_out f.standard.id _ hx r hr hid]
      exact ⟨rfl, rfl⟩
    · intro v hv hnf r hr hid
      have hM0none : rmLookup v.id (addFtsResults w F) = none := by
        rw [rmLookupNoneIff, hM0keys]
        intro hmem
        rcases List.mem_map.mp hmem with ⟨f, hf, heq⟩
        exact hnf f hf heq
      rcases List.append_of_mem hv with ⟨V1, V2, rfl⟩
      have hVmap : (V1 ++ v :: V2).map (fun u => u.id) =
          V1.map (fun u => u.id) ++ v.id :: V2.map (fun u => u.id) := by simp
      rw [hVmap] at hV
      have hdisj := List.disjoint_of_nodup_append hV
      have hV1 : ∀ u ∈ V1, u.id ≠ v.id := by
        intro u hu heq2
        exact hdisj (List.mem_map.mpr ⟨u, hu, rfl⟩) (heq2 ▸ List.mem_cons_self _ _)
      have hV2 : ∀ u ∈ V2, u.id ≠ v.id := by
        rcases List.nodup_cons.mp (List.Nodup.of_append_right hV) with ⟨hnotin, _⟩
        intro u hu heq2
        exact hnotin (heq2 ▸ List.mem_map.mpr ⟨u, hu, rfl⟩)
      rw [List.foldlM_append] at hfold
      cases hsplit : List.foldlM (addVecResult parseTags w) (addFtsResults w F) V1 with
      | none =>
        rw [hsplit] at hfold
        simp at hfold
      | some m1 =>
        rw [hsplit] at hfold
        simp only [Option.bind_eq_bind, Option.some_bind] at hfold
        have hm1none : rmLookup v.id m1 = none := by
          rw [addVecLookupFresh parseTags w V1 _ m1 hsplit v.id hV1]
          exact hM0none
        rcases addVecHitNew parseTags w v V2 m1 m2 hfold hm1none hV2 with ⟨std, _, hlk⟩
        rw [hlookup_out v.id _ hlk r hr hid]
        exact ⟨rfl, rfl⟩
    · intro f hf v hv heq hmx
      have hx := hboth f hf v hv heq
      have hmem2 : (f.standard.id, bumpSemantic w v (scaleFtsResult w f)) ∈ m2 :=
        rmLookupMem _ _ _ hx
      have hvmem : bumpSemantic w v (scaleFtsResult w f) ∈ m2.map (fun p => p.2) :=
        List.mem_map.mpr ⟨_, hmem2, rfl⟩
      have hsortmem : bumpSemantic w v (scaleFtsResult w f) ∈
          List.insertionSort srGE (m2.map (fun p => p.2)) :=
        (List.perm_insertionSort srGE _).mem_iff.mpr hvmem
      have hlen : (List.insertionSort srGE (m2.map (fun p => p.2))).length ≤ mx := by
        rw [(List.perm_insertionSort srGE _).length_eq, List.length_map]
        have hle : m2.length ≤ F.length + V.length := by
          rw [← hM0len]
          exact hm2len
        omega
      refine ⟨bumpSemantic w v (scaleFtsResult w f), ?_, rfl⟩
      rw [hval, List.take_of_length_le hlen]
      exact hsortmem
    · rw [hval]
      exact List.Pairwise.sublist (List.take_sublist mx _) (List.sorted_insertionSort srGE _)
    · rw [hval]
      exact List.length_take_le mx _

/-- The vector metadata of the concrete semantic hit in the fusion witness. -/
def c1Meta : VecMeta :=
  { title := "API OAuth standard"
    category := "APIs"
    sourceOrg := "GDS"
    complianceLevel := ""
    url := "https://example.gov.uk/apis/oauth"
    tags := ""
    lastUpdated := ""
    createdAt := "2024-01-01T00:00:00.000Z" }

/-- Witness for C1: one lexical result with score 2 fused with one semantic
result with score 1/2 under weight 3/5 yields the single combined entry with
score 2 times 2/5 plus 1/2 times 3/5 = 11/10 and the semantic marker
appended. -/
theorem hybrid_fusion_witness :
    hybridSearch (fun _ => some []) (3/5) 20 (.ok [⟨exStdA, 2, ["title"]⟩])
        (.ok [⟨exStdA.id, 1/2, c1Meta, "OAuth document text"⟩]) =
      .ok [⟨exStdA, 11/10, ["title", "semantic"]⟩] :=
  (hybrid_fusion (fun _ => some []) (3/5) 20 [⟨exStdA, 2, ["title"]⟩]
    [⟨exStdA.id, 1/2, c1Meta, "OAuth document text"⟩]
    [⟨exStdA, 11/10, ["title", "semantic"]⟩]
    (by decide) (by decide)
    (by
      simp [fuseResults, addFtsResults, addVecResult, rmSet, rmLookup, scaleFtsResult,
        bumpSemantic, List.insertionSort, List.orderedInsert, srGE]
      norm_num)).1

/-! ### Claim C2: semantic-branch degradation -/

/-- C2: when the lexical branch succeeds with results L, hybridSearch never
propagates an error; a failing semantic call degrades to the lexical results
alone (scores scaled by 1 - w, sorted, truncated), which is nonempty
whenever L is nonempty and maxResults is positive; and a failure inside the
fusion itself degrades to the lexical result list exactly. -/
theorem hybridSearch_semantic_degradation (parseTags : String → Option (List String))
    (w : ℚ) (mx : Nat) (sem : Except String (List VecResult)) (L : List SearchResult)
    (hids : (L.map (fun r => r.standard.id)).Nodup) :
    (∃ R, hybridSearch parseTags w mx (.ok L) sem = .ok R) ∧
    (∀ e, sem = .error e →
      hybridSearch parseTags w mx (.ok L) sem =
        .ok ((List.insertionSort srGE (L.map (scaleFtsResult w))).take mx) ∧
      (∀ r ∈ (List.insertionSort srGE (L.map (scaleFtsResult w))).take mx,
        ∃ f ∈ L, r = scaleFtsResult w f) ∧
      (L ≠ [] → 0 < mx →
        (List.insertionSort srGE (L.map (scaleFtsResult w))).take mx ≠ [])) ∧
    (∀ V, sem = .ok V → fuseResults parseTags w mx L V = none →
      hybridSearch parseTags w mx (.ok L) sem = .ok L) := by
  have hfuse0 : fuseResults parseTags w mx L [] =
      some ((List.insertionSort srGE (L.map (scaleFtsResult w))).take mx) := by
    unfold fuseResults
    simp only [List.foldlM_nil]
    rw [addFtsEq w L hids, List.map_map]
    rfl
  refine ⟨?_, ?_, ?_⟩
  · cases sem with
    | error e =>
      refine ⟨(List.insertionSort srGE (L.map (scaleFtsResult w))).take mx, ?_⟩
      simp [hybridSearch, hfuse0]
    | ok V =>
      cases hf : fuseResults parseTags w mx L V with
      | none => exact ⟨L, by simp [hybridSearch, hf]⟩
      | some R => exact ⟨R, by simp [hybridSearch, hf]⟩
  · intro e hsem
    subst hsem
    refine ⟨by simp [hybridSearch, hfuse0], ?_, ?_⟩
    · intro r hr
      have hr2 : r ∈ List.insertionSort srGE (L.map (scaleFtsResult w)) :=
        List.take_subset _ _ hr
      have hr3 : r ∈ L.map (scaleFtsResult w) :=
        (List.perm_insertionSort srGE _).mem_iff.mp hr2
      rcases List.mem_map.mp hr3 with ⟨f, hf, rfl⟩
      exact ⟨f, hf, rfl⟩
    · intro hL hmx
      have hlen : ((List.insertionSort srGE (L.map (scaleFtsResult w))).take mx).length =
          min mx L.length := by
        rw [List.length_take, (List.perm_insertionSort srGE _).length_eq, List.length_map]
      have hpos : 0 < L.length := List.length_pos.mpr hL
      have : 0 < ((List.insertionSort srGE (L.map (scaleFtsResult w))).take mx).length := by
        rw [hlen]
        omega
      exact List.ne_nil_of_length_pos this
  · intro V hsem hf
    subst hsem
    simp [hybridSearch, hf]

/-- Witness for C2: with the semantic branch failing, the concrete
single-result lexical list is returned scaled and sorted, not an error. -/
theorem hybridSearch_semantic_degradation_witness :
    hybridSearch (fun _ => some []) (3/5) 20 (.ok [⟨exStdA, 2, ["title"]⟩])
        (.error "semantic backend unavailable") =
      .ok ((List.insertionSort srGE
        ([(⟨exStdA, 2, ["title"]⟩ : SearchResult)].map (scaleFtsResult (3/5)))).take 20) :=
  ((hybridSearch_semantic_degradation (fun _ => some []) (3/5) 20
    (.error "semantic backend unavailable") [⟨exStdA, 2, ["title"]⟩]
    (by decide)).2.1 "semantic backend unavailable" rfl).1

/-- Witness for C4: the first example content classifies as mandatory. -/
theorem compliance_decision_rule_witness :
    determineComplianceLevel "Services must implement HTTPS and must log access." =
      some ComplianceLevel.mandatory :=
  (compliance_decision_rule "Services must implement HTTPS and must log access.").2.2.2.2.1
